import Mathlib

/-!
Shallow embedding of the update-mechanism repository (src/version.py and
src/update.py) together with proofs about the frozen specification claims.

Modelling conventions:
* Python strings are embedded as `List Char`; file contents (bytes) as
  `List Char` as well, so the "empty download" check is `content = []`.
* The live installation directory is an association list from relative
  paths (lists of path components, each a `List Char`) to file contents;
  directories exist implicitly whenever an entry lies below them.
* Network and subprocess effects (middleware downloads, pip) are passed in
  as explicit oracles, so every definition stays executable.
* Machine-level failures that the Python code can only hit through raised
  IO exceptions (disk errors while deleting or writing) are not modelled;
  every claim below is about the control flow the code itself implements.
-/

namespace UpdateMechanism

/-! ## src/version.py : the Version value and its ordering

`Version.__init__` keeps the original string only for `repr`; equality and
ordering compare the `(major, minor, patch)` tuples, so the embedded value
is just the numeric triple. -/

structure Version where
  major : Nat
  minor : Nat
  patch : Nat
deriving DecidableEq, Repr

/-- Python `__lt__`: tuple comparison `(major, minor, patch) < ...`. -/
def vlt (a b : Version) : Prop :=
  a.major < b.major ∨
    (a.major = b.major ∧
      (a.minor < b.minor ∨ (a.minor = b.minor ∧ a.patch < b.patch)))

instance (a b : Version) : Decidable (vlt a b) := by
  unfold vlt; exact inferInstance

/-- Python `__lt__` as the Bool the interpreter branches on. -/
def ltb (a b : Version) : Bool := decide (vlt a b)

/-- Python `__gt__`: tuple comparison, i.e. the converse of `__lt__`. -/
def gtb (a b : Version) : Bool := decide (vlt b a)

/-- Python `__eq__`: tuple equality. -/
def eqb (a b : Version) : Bool := decide (a = b)

/-- Python `__ge__`: `self > other or self == other`. -/
def geb (a b : Version) : Bool := gtb a b || eqb a b

/-- Python `__le__`: `self < other or self == other`. -/
def leb (a b : Version) : Bool := ltb a b || eqb a b

/-- `bump_major`: `Version(f"{major+1}.0.0")`. -/
def bump_major (v : Version) : Version := ⟨v.major + 1, 0, 0⟩

/-- `bump_minor`: `Version(f"{major}.{minor+1}.0")`. -/
def bump_minor (v : Version) : Version := ⟨v.major, v.minor + 1, 0⟩

/-- `bump_patch`: `Version(f"{major}.{minor}.{patch+1}")`. -/
def bump_patch (v : Version) : Version := ⟨v.major, v.minor, v.patch + 1⟩

/-! `find_intermediate_versions` consists of three `while` loops, each
bumping one component until it reaches the target component.  Each loop is
embedded as a recursive function returning the appended versions together
with the final value of `current_version`. -/

/-- `while current_version.major < target.major: ... bump_major()`. -/
def majorLoop (cv : Version) (tM : Nat) : List Version × Version :=
  if cv.major < tM then
    let nv := bump_major cv
    let r := majorLoop nv tM
    (nv :: r.1, r.2)
  else ([], cv)
termination_by tM - cv.major
decreasing_by simp [bump_major]; omega

/-- `while current_version.minor < target.minor: ... bump_minor()`. -/
def minorLoop (cv : Version) (tm : Nat) : List Version × Version :=
  if cv.minor < tm then
    let nv := bump_minor cv
    let r := minorLoop nv tm
    (nv :: r.1, r.2)
  else ([], cv)
termination_by tm - cv.minor
decreasing_by simp [bump_minor]; omega

/-- `while current_version.patch < target.patch: ... bump_patch()`. -/
def patchLoop (cv : Version) (tp : Nat) : List Version × Version :=
  if cv.patch < tp then
    let nv := bump_patch cv
    let r := patchLoop nv tp
    (nv :: r.1, r.2)
  else ([], cv)
termination_by tp - cv.patch
decreasing_by simp [bump_patch]; omega

/-- `find_intermediate_versions(current, target)` from src/version.py. -/
def find_intermediate_versions (current target : Version) : List Version :=
  if geb current target then []
  else
    let r1 := majorLoop current target.major
    let r2 := minorLoop r1.2 target.minor
    let r3 := patchLoop r2.2 target.patch
    r1.1 ++ (r2.1 ++ r3.1)

/-! ### Order facts -/

theorem geb_false_iff_vlt (a b : Version) : geb a b = false ↔ vlt a b := by
  obtain ⟨x, y, z⟩ := a
  obtain ⟨p, q, r⟩ := b
  simp only [geb, gtb, eqb, vlt, Bool.or_eq_false_iff, decide_eq_false_iff_not,
    Version.mk.injEq]
  omega

theorem vlt_trans {a b c : Version} (h1 : vlt a b) (h2 : vlt b c) : vlt a c := by
  obtain ⟨x, y, z⟩ := a
  obtain ⟨p, q, r⟩ := b
  obtain ⟨u, v, w⟩ := c
  simp only [vlt] at *
  omega

/-! ### Loop lemmas -/

theorem majorLoop_spec :
    ∀ (n : Nat) (cv : Version) (tM : Nat), tM - cv.major = n →
      List.Chain vlt cv (majorLoop cv tM).1 ∧
      (majorLoop cv tM).2 = ((majorLoop cv tM).1).getLastD cv ∧
      (majorLoop cv tM).2 = (if cv.major < tM then ⟨tM, 0, 0⟩ else cv) ∧
      ((majorLoop cv tM).1 = [] ↔ ¬ cv.major < tM) := by
  intro n
  induction n with
  | zero =>
    intro cv tM hn
    have h : ¬ cv.major < tM := by omega
    rw [majorLoop]
    simp [h]
  | succ k ih =>
    intro cv tM hn
    have h : cv.major < tM := by omega
    have hk : tM - (bump_major cv).major = k := by simp [bump_major]; omega
    obtain ⟨c1, c2, c3, c4⟩ := ih (bump_major cv) tM hk
    rw [majorLoop]
    simp only [h, if_true]
    refine ⟨?_, ?_, ?_, ?_⟩
    · exact List.Chain.cons (by simp [vlt, bump_major]) c1
    · rw [List.getLastD_cons]; exact c2
    · rw [c3]
      by_cases h2 : cv.major + 1 < tM
      · rw [if_pos (by simpa [bump_major] using h2)]
      · have htM : tM = cv.major + 1 := by omega
        rw [if_neg (by simpa [bump_major] using h2)]
        simp [bump_major, htM]
    · simp

theorem minorLoop_spec :
    ∀ (n : Nat) (cv : Version) (tm : Nat), tm - cv.minor = n →
      List.Chain vlt cv (minorLoop cv tm).1 ∧
      (minorLoop cv tm).2 = ((minorLoop cv tm).1).getLastD cv ∧
      (minorLoop cv tm).2 = (if cv.minor < tm then ⟨cv.major, tm, 0⟩ else cv) ∧
      ((minorLoop cv tm).1 = [] ↔ ¬ cv.minor < tm) := by
  intro n
  induction n with
  | zero =>
    intro cv tm hn
    have h : ¬ cv.minor < tm := by omega
    rw [minorLoop]
    simp [h]
  | succ k ih =>
    intro cv tm hn
    have h : cv.minor < tm := by omega
    have hk : tm - (bump_minor cv).minor = k := by simp [bump_minor]; omega
    obtain ⟨c1, c2, c3, c4⟩ := ih (bump_minor cv) tm hk
    rw [minorLoop]
    simp only [h, if_true]
    refine ⟨?_, ?_, ?_, ?_⟩
    · exact List.Chain.cons (by simp [vlt, bump_minor]) c1
    · rw [List.getLastD_cons]; exact c2
    · rw [c3]
      by_cases h2 : cv.minor + 1 < tm
      · rw [if_pos (by simpa [bump_minor] using h2)]
        simp [bump_minor]
      · have htm : tm = cv.minor + 1 := by omega
        rw [if_neg (by simpa [bump_minor] using h2)]
        simp [bump_minor, htm]
    · simp

theorem patchLoop_spec :
    ∀ (n : Nat) (cv : Version) (tp : Nat), tp - cv.patch = n →
      List.Chain vlt cv (patchLoop cv tp).1 ∧
      (patchLoop cv tp).2 = ((patchLoop cv tp).1).getLastD cv ∧
      (patchLoop cv tp).2 = (if cv.patch < tp then ⟨cv.major, cv.minor, tp⟩ else cv) ∧
      ((patchLoop cv tp).1 = [] ↔ ¬ cv.patch < tp) := by
  intro n
  induction n with
  | zero =>
    intro cv tp hn
    have h : ¬ cv.patch < tp := by omega
    rw [patchLoop]
    simp [h]
  | succ k ih =>
    intro cv tp hn
    have h : cv.patch < tp := by omega
    have hk : tp - (bump_patch cv).patch = k := by simp [bump_patch]; omega
    obtain ⟨c1, c2, c3, c4⟩ := ih (bump_patch cv) tp hk
    rw [patchLoop]
    simp only [h, if_true]
    refine ⟨?_, ?_, ?_, ?_⟩
    · exact List.Chain.cons (by simp [vlt, bump_patch]) c1
    · rw [List.getLastD_cons]; exact c2
    · rw [c3]
      by_cases h2 : cv.patch + 1 < tp
      · rw [if_pos (by simpa [bump_patch] using h2)]
        simp [bump_patch]
      · have htp : tp = cv.patch + 1 := by omega
        rw [if_neg (by simpa [bump_patch] using h2)]
        simp [bump_patch, htp]
    · simp

theorem chain_append_chain {α : Type} {R : α → α → Prop} {a : α}
    {l1 l2 : List α} (h1 : List.Chain R a l1)
    (h2 : List.Chain R (l1.getLastD a) l2) : List.Chain R a (l1 ++ l2) := by
  induction l1 generalizing a with
  | nil => simpa using h2
  | cons x xs ih =>
    cases h1 with
    | cons hax hchain =>
      simp only [List.getLastD_cons] at h2
      exact List.Chain.cons hax (ih hchain h2)

theorem getLastD_append_eq {α : Type} (l1 l2 : List α) (a : α) :
    (l1 ++ l2).getLastD a = l2.getLastD (l1.getLastD a) := by
  induction l1 generalizing a with
  | nil => simp
  | cons x xs ih =>
    rw [List.cons_append, List.getLastD_cons, ih, List.getLastD_cons]

/-! ## src/version.py : `Version._parse_version` and `Version.__str__`

`_parse_version` does `version_string.strip().lstrip('vV')` and then
matches the anchored ASCII regular expression with the three groups
`(\d+)\.(\d+)\.(\d+)`.  The regex is embedded by splitting the stripped
string at every dot and requiring exactly three groups of one or more
digit characters.  Python's `str.strip` and `\d` also cover non-ASCII
whitespace and digits; the embedding works over the ASCII repertoire. -/

/-- Whitespace characters removed by `str.strip()` (ASCII repertoire). -/
def isPySpace (c : Char) : Bool :=
  c = ' ' || c = '\t' || c = '\n' || c = '\r' ||
    c = Char.ofNat 11 || c = Char.ofNat 12

/-- `s.strip()`: drop whitespace on both ends. -/
def pyStrip (s : List Char) : List Char :=
  ((s.dropWhile isPySpace).reverse.dropWhile isPySpace).reverse

/-- `s.lstrip('vV')`: drop every leading `v`/`V` (not just one). -/
def lstripV (s : List Char) : List Char :=
  s.dropWhile (fun c => c = 'v' || c = 'V')

/-- Split at every occurrence of `sep`; returns the first group and the
remaining groups (so the result always has at least one group). -/
def splitSep (sep : Char) : List Char → List Char × List (List Char)
  | [] => ([], [])
  | c :: cs =>
    let r := splitSep sep cs
    if c = sep then ([], r.1 :: r.2) else (c :: r.1, r.2)

/-- All groups of a `sep`-split. -/
def splitGroups (sep : Char) (s : List Char) : List (List Char) :=
  (splitSep sep s).1 :: (splitSep sep s).2

/-- Join groups back, placing `sep` before every group but the first. -/
def joinTail (sep : Char) (gs : List (List Char)) : List Char :=
  gs.foldr (fun g acc => sep :: g ++ acc) []

def joinGroups (sep : Char) : List (List Char) → List Char
  | [] => []
  | g :: gs => g ++ joinTail sep gs

/-- One regex group `\d+`: non-empty, every char a decimal digit. -/
def isDigitGroup (g : List Char) : Bool :=
  !g.isEmpty && g.all Char.isDigit

/-- `int(...)` on a digit string. -/
def parseNat (g : List Char) : Nat :=
  g.foldl (fun a c => 10 * a + (c.toNat - 48)) 0

/-- `Version._parse_version` (including the `strip`/`lstrip` of both
`__init__` and `_parse_version`): `None` models the raised `ValueError`. -/
def parse_version (s : List Char) : Option Version :=
  let t := lstripV (pyStrip s)
  match splitGroups '.' t with
  | [g1, g2, g3] =>
    if isDigitGroup g1 && isDigitGroup g2 && isDigitGroup g3 then
      some ⟨parseNat g1, parseNat g2, parseNat g3⟩
    else none
  | _ => none

/-- Decimal rendering of one component of an f-string. -/
def natDigits (n : Nat) : List Char :=
  if n = 0 then ['0'] else ((Nat.digits 10 n).map Nat.digitChar).reverse

/-- `Version.__str__`: `f"{major}.{minor}.{patch}"`. -/
def renderVersion (v : Version) : List Char :=
  natDigits v.major ++ ('.' :: (natDigits v.minor ++ ('.' :: natDigits v.patch)))

/-! ### Lemmas about the split/join pair -/

theorem splitSep_no_sep (sep : Char) (g : List Char) (h : sep ∉ g) :
    splitSep sep g = (g, []) := by
  induction g with
  | nil => rfl
  | cons c cs ih =>
    simp only [List.mem_cons, not_or] at h
    rw [splitSep, ih h.2, if_neg (fun hc => h.1 hc.symm)]

theorem splitSep_append (sep : Char) (g rest : List Char) (h : sep ∉ g) :
    splitSep sep (g ++ sep :: rest) =
      (g, (splitSep sep rest).1 :: (splitSep sep rest).2) := by
  induction g with
  | nil => simp [splitSep]
  | cons c cs ih =>
    simp only [List.mem_cons, not_or] at h
    rw [List.cons_append, splitSep, ih h.2, if_neg (fun hc => h.1 hc.symm)]

theorem splitGroups_three (sep : Char) (g1 g2 g3 : List Char)
    (h1 : sep ∉ g1) (h2 : sep ∉ g2) (h3 : sep ∉ g3) :
    splitGroups sep (g1 ++ (sep :: (g2 ++ (sep :: g3)))) = [g1, g2, g3] := by
  have e2 : splitSep sep (g2 ++ sep :: g3) = (g2, [g3]) := by
    rw [splitSep_append sep g2 g3 h2, splitSep_no_sep sep g3 h3]
  have e1 : splitSep sep (g1 ++ sep :: (g2 ++ sep :: g3)) = (g1, [g2, g3]) := by
    rw [splitSep_append sep g1 (g2 ++ sep :: g3) h1, e2]
  rw [splitGroups, e1]

theorem splitSep_join (sep : Char) (t : List Char) :
    (splitSep sep t).1 ++ joinTail sep (splitSep sep t).2 = t := by
  induction t with
  | nil => rfl
  | cons c cs ih =>
    by_cases hc : c = sep
    · rw [splitSep, if_pos hc, hc]
      show (sep :: (splitSep sep cs).1) ++ joinTail sep (splitSep sep cs).2 = sep :: cs
      rw [List.cons_append, ih]
    · rw [splitSep, if_neg hc]
      show (c :: (splitSep sep cs).1) ++ joinTail sep (splitSep sep cs).2 = c :: cs
      rw [List.cons_append, ih]

theorem joinGroups_splitGroups (sep : Char) (t : List Char) :
    joinGroups sep (splitGroups sep t) = t := by
  rw [splitGroups, joinGroups]
  exact splitSep_join sep t

theorem splitSep_no_sep_mem (sep : Char) (t : List Char) :
    sep ∉ (splitSep sep t).1 ∧ ∀ g ∈ (splitSep sep t).2, sep ∉ g := by
  induction t with
  | nil => simp [splitSep]
  | cons c cs ih =>
    rw [splitSep]
    by_cases hc : c = sep
    · subst hc
      simp only [if_pos rfl]
      refine ⟨by simp, ?_⟩
      intro g hg
      rcases List.mem_cons.mp hg with h | h
      · rw [h]; exact ih.1
      · exact ih.2 g h
    · simp only [if_neg hc]
      refine ⟨?_, ih.2⟩
      intro hmem
      rcases List.mem_cons.mp hmem with h | h
      · exact hc h.symm
      · exact ih.1 h

theorem splitGroups_no_sep (sep : Char) (t : List Char) :
    ∀ g ∈ splitGroups sep t, sep ∉ g := by
  intro g hg
  rcases List.mem_cons.mp hg with h | h
  · rw [h]; exact (splitSep_no_sep_mem sep t).1
  · exact (splitSep_no_sep_mem sep t).2 g h

/-! ### Decimal digits round-trip -/

theorem digitChar_toNat_sub (d : Nat) (h : d < 10) :
    (Nat.digitChar d).toNat - 48 = d := by
  interval_cases d <;> rfl

theorem digitChar_isDigit (d : Nat) (h : d < 10) :
    (Nat.digitChar d).isDigit = true := by
  interval_cases d <;> rfl

theorem foldl_digits_rev (l : List Nat) (h : ∀ d ∈ l, d < 10) :
    ∀ a : Nat,
      List.foldl (fun x c => 10 * x + (c.toNat - 48)) a
        ((l.map Nat.digitChar).reverse) =
      a * 10 ^ l.length + Nat.ofDigits 10 l := by
  induction l with
  | nil => intro a; simp [Nat.ofDigits_nil]
  | cons d t ih =>
    intro a
    have hd : d < 10 := h d (List.mem_cons_self _ _)
    have ht : ∀ x ∈ t, x < 10 := fun x hx => h x (List.mem_cons_of_mem _ hx)
    rw [List.map_cons, List.reverse_cons, List.foldl_append, ih ht a]
    simp only [List.foldl_cons, List.foldl_nil]
    rw [digitChar_toNat_sub d hd, Nat.ofDigits_cons, List.length_cons, pow_succ]
    ring

theorem parseNat_natDigits (n : Nat) : parseNat (natDigits n) = n := by
  by_cases h0 : n = 0
  · subst h0; rfl
  · rw [natDigits, if_neg h0, parseNat]
    rw [foldl_digits_rev (Nat.digits 10 n)
      (fun d hd => Nat.digits_lt_base (by norm_num) hd) 0]
    simp [Nat.ofDigits_digits]

theorem natDigits_ne_nil (n : Nat) : natDigits n ≠ [] := by
  rw [natDigits]
  by_cases h0 : n = 0
  · simp [h0]
  · simp only [if_neg h0]
    intro h
    rw [List.reverse_eq_nil_iff, List.map_eq_nil_iff] at h
    exact Nat.digits_ne_nil_iff_ne_zero.mpr h0 h

theorem natDigits_isDigit (n : Nat) : ∀ c ∈ natDigits n, c.isDigit = true := by
  intro c hc
  rw [natDigits] at hc
  by_cases h0 : n = 0
  · rw [if_pos h0] at hc
    simp at hc
    rw [hc]; rfl
  · rw [if_neg h0] at hc
    rw [List.mem_reverse, List.mem_map] at hc
    obtain ⟨d, hd, rfl⟩ := hc
    exact digitChar_isDigit d (Nat.digits_lt_base (by norm_num) hd)

theorem isDigitGroup_natDigits (n : Nat) : isDigitGroup (natDigits n) = true := by
  rw [isDigitGroup]
  have h1 : (natDigits n).isEmpty = false :=
    List.isEmpty_eq_false.mpr (natDigits_ne_nil n)
  rw [h1]
  simp only [Bool.not_false, Bool.true_and, List.all_eq_true]
  intro c hc
  simp [natDigits_isDigit n c hc]

theorem isDigit_ne_dot {c : Char} (h : c.isDigit = true) : c ≠ '.' :=
  fun heq => absurd (heq ▸ h) (by decide)

theorem isDigit_not_pySpace {c : Char} (h : c.isDigit = true) :
    isPySpace c = false := by
  by_contra hc
  have ht : isPySpace c = true := by
    cases hp : isPySpace c
    · exact absurd hp hc
    · rfl
  simp only [isPySpace, Bool.or_eq_true, decide_eq_true_eq] at ht
  rcases ht with ((((h1 | h1) | h1) | h1) | h1) | h1 <;>
    exact absurd (h1 ▸ h) (by decide)

theorem isDigit_not_vV {c : Char} (h : c.isDigit = true) :
    (c = 'v' || c = 'V') = false := by
  by_contra hc
  have ht : (c = 'v' || c = 'V') = true := by
    cases hp : (c = 'v' || c = 'V')
    · exact absurd hp hc
    · rfl
  simp only [Bool.or_eq_true, decide_eq_true_eq] at ht
  rcases ht with h1 | h1 <;> exact absurd (h1 ▸ h) (by decide)

theorem dot_not_mem_natDigits (n : Nat) : '.' ∉ natDigits n :=
  fun h => isDigit_ne_dot (natDigits_isDigit n '.' h) rfl

/-! ### `strip` no-ops -/

theorem dropWhile_eq_self_of_false {p : Char → Bool} {l : List Char}
    (h : ∀ c ∈ l, p c = false) : l.dropWhile p = l := by
  cases l with
  | nil => rfl
  | cons c cs =>
    rw [List.dropWhile_cons, h c (List.mem_cons_self _ _)]
    simp

theorem pyStrip_eq_self {l : List Char} (h : ∀ c ∈ l, isPySpace c = false) :
    pyStrip l = l := by
  rw [pyStrip, dropWhile_eq_self_of_false h,
    dropWhile_eq_self_of_false (fun c hc => h c (List.mem_reverse.mp hc)),
    List.reverse_reverse]

theorem lstripV_eq_self {l : List Char}
    (h : ∀ c ∈ l, (c = 'v' || c = 'V') = false) : lstripV l = l :=
  dropWhile_eq_self_of_false h

theorem renderVersion_chars (v : Version) :
    ∀ c ∈ renderVersion v, c.isDigit = true ∨ c = '.' := by
  intro c hc
  rw [renderVersion] at hc
  rcases List.mem_append.mp hc with h | h
  · exact Or.inl (natDigits_isDigit _ _ h)
  · rcases List.mem_cons.mp h with h | h
    · exact Or.inr h
    · rcases List.mem_append.mp h with h | h
      · exact Or.inl (natDigits_isDigit _ _ h)
      · rcases List.mem_cons.mp h with h | h
        · exact Or.inr h
        · exact Or.inl (natDigits_isDigit _ _ h)

/-- Rendering a version and parsing it back yields the same triple: the
workhorse behind the round-trip claim. -/
theorem parse_version_renderVersion (v : Version) :
    parse_version (renderVersion v) = some v := by
  have hchars := renderVersion_chars v
  have hstrip : pyStrip (renderVersion v) = renderVersion v :=
    pyStrip_eq_self (fun c hc => by
      rcases hchars c hc with h | h
      · exact isDigit_not_pySpace h
      · rw [h]; rfl)
  have hv : lstripV (renderVersion v) = renderVersion v :=
    lstripV_eq_self (fun c hc => by
      rcases hchars c hc with h | h
      · exact isDigit_not_vV h
      · rw [h]; rfl)
  have hsg : splitGroups '.' (renderVersion v) =
      [natDigits v.major, natDigits v.minor, natDigits v.patch] := by
    rw [renderVersion]
    exact splitGroups_three '.' _ _ _ (dot_not_mem_natDigits _)
      (dot_not_mem_natDigits _) (dot_not_mem_natDigits _)
  rw [parse_version, hstrip, hv, hsg]
  simp [isDigitGroup_natDigits, parseNat_natDigits]

/-! ### Exact shape of the strings `_parse_version` accepts -/

/-- Three dot-separated non-empty digit groups (the anchored regex body). -/
def ThreeGroups (t : List Char) : Prop :=
  ∃ g1 g2 g3 : List Char, isDigitGroup g1 = true ∧ isDigitGroup g2 = true ∧
    isDigitGroup g3 = true ∧ t = g1 ++ ('.' :: (g2 ++ ('.' :: g3)))

theorem isDigitGroup_no_dot {g : List Char} (h : isDigitGroup g = true) :
    '.' ∉ g := by
  intro hmem
  rw [isDigitGroup, Bool.and_eq_true, List.all_eq_true] at h
  exact absurd (h.2 _ hmem) (by decide)

theorem ThreeGroups_head_digit {t : List Char} (h : ThreeGroups t) :
    ∃ ch cs, t = ch :: cs ∧ ch.isDigit = true := by
  obtain ⟨g1, g2, g3, d1, _, _, rfl⟩ := h
  cases g1 with
  | nil => rw [isDigitGroup] at d1; simp at d1
  | cons ch cs =>
    refine ⟨ch, cs ++ ('.' :: (g2 ++ ('.' :: g3))), rfl, ?_⟩
    rw [isDigitGroup, Bool.and_eq_true, List.all_eq_true] at d1
    exact d1.2 ch (List.mem_cons_self _ _)

/-- `_parse_version` succeeds exactly when the stripped, de-`v`-ed string
consists of three dot-separated digit groups. -/
theorem parse_version_isSome_iff (s : List Char) :
    (parse_version s).isSome = true ↔ ThreeGroups (lstripV (pyStrip s)) := by
  constructor
  · intro h
    simp only [parse_version] at h
    rcases hsg : splitGroups '.' (lstripV (pyStrip s)) with
      _ | ⟨g1, _ | ⟨g2, _ | ⟨g3, _ | ⟨g4, gs⟩⟩⟩⟩ <;> rw [hsg] at h
    · simp at h
    · simp at h
    · simp at h
    · by_cases hd : (isDigitGroup g1 && isDigitGroup g2 && isDigitGroup g3) = true
      · rw [Bool.and_eq_true, Bool.and_eq_true] at hd
        have hjoin := joinGroups_splitGroups '.' (lstripV (pyStrip s))
        rw [hsg] at hjoin
        simp only [joinGroups, joinTail, List.foldr_cons, List.foldr_nil,
          List.append_nil, List.cons_append, List.append_assoc] at hjoin
        exact ⟨g1, g2, g3, hd.1.1, hd.1.2, hd.2, hjoin.symm⟩
      · rw [Bool.not_eq_true] at hd
        simp [hd] at h
    · simp at h
  · rintro ⟨g1, g2, g3, d1, d2, d3, ht⟩
    simp only [parse_version]
    rw [ht, splitGroups_three '.' g1 g2 g3 (isDigitGroup_no_dot d1)
      (isDigitGroup_no_dot d2) (isDigitGroup_no_dot d3)]
    simp [d1, d2, d3]

/-- Modelled from the spec claim wording (refinement reference only): an
optional *single* leading `v`/`V` followed by exactly three dot-separated
non-negative decimal integer components. -/
def ClaimedShape (s : List Char) : Prop :=
  ThreeGroups s ∨ ∃ rest, (s = 'v' :: rest ∨ s = 'V' :: rest) ∧ ThreeGroups rest

/-! ## src/update.py : filesystem model

Relative paths are lists of components (`Path`); the live installation
directory (`~/.codemate.test`) is an association list from paths to file
contents.  A path is a directory exactly when some entry lies strictly
below it, which is how `Path.is_dir`/`exists` behave on a real tree. -/

abbrev Name : Type := List Char

abbrev Path : Type := List Name

abbrev Content : Type := List Char

abbrev FileMap : Type := List (Path × Content)

/-- Association-list lookup of a file. -/
def lookupFile (fs : FileMap) (p : Path) : Option Content :=
  match fs with
  | [] => none
  | e :: rest => if e.1 = p then some e.2 else lookupFile rest p

/-- Boolean list-prefix test (`listPre p l` iff `p` is a prefix of `l`). -/
def listPre {α : Type} [DecidableEq α] : List α → List α → Bool
  | [], _ => true
  | _ :: _, [] => false
  | a :: as, b :: bs => a = b && listPre as bs

/-- Python substring test `pat in l`. -/
def containsSub : List Char → List Char → Bool
  | l, pat =>
    listPre pat l ||
      match l with
      | [] => false
      | _ :: t => containsSub t pat

/-- `filename` split at `/` (how `codemate_dir / filename` nests). -/
def splitSlash (f : Name) : Path :=
  (splitSep '/' f).1 :: (splitSep '/' f).2

/-- `file_path.exists()`: the path is a file or has entries below it. -/
def pathExists (fs : FileMap) (p : Path) : Bool :=
  fs.any (fun e => listPre p e.1)

/-- `unlink`/`rmtree`: remove the file or the whole subtree. -/
def deletePath (fs : FileMap) (p : Path) : FileMap :=
  fs.filter (fun e => !(listPre p e.1))

/-- `open(path, 'wb').write(content)` (parents auto-created). -/
def writeFile (fs : FileMap) (p : Path) (c : Content) : FileMap :=
  (fs.filter (fun e => !(decide (e.1 = p)))) ++ [(p, c)]

/-! ### Exclusion patterns and `shutil.ignore_patterns` -/

/-- `fnmatch` on the pattern repertoire used here (literals and `*`),
written with an explicit fuel so the kernel can evaluate it; every
recursive call shrinks `pattern.length + s.length` by at least one, so a
fuel of `pattern.length + s.length + 1` never runs out. -/
def globMatchFuel : Nat → List Char → List Char → Bool
  | 0, _, _ => false
  | _ + 1, [], s => s.isEmpty
  | k + 1, '*' :: ps, s =>
    globMatchFuel k ps s ||
      match s with
      | [] => false
      | _ :: s2 => globMatchFuel k ('*' :: ps) s2
  | _ + 1, _ :: _, [] => false
  | k + 1, p :: ps, c :: s => p = c && globMatchFuel k ps s

def globMatch (pat s : List Char) : Bool :=
  globMatchFuel (pat.length + s.length + 1) pat s

/-- The module-level `EXCLUDE_PATTERNS` list of src/update.py. -/
def EXCLUDE_PATTERNS : List (List Char) :=
  ["user_data/".data, "config/user_settings.json".data, "logs/".data,
   "cache/".data, "temp/".data, "backup_*/".data, "staging*/".data,
   "*.tmp".data, "*.temp".data, "*.bak".data,
   ".env".data, ".env.*".data, "*.key".data, "*.secret".data,
   "user_files/".data, "documents/".data, "media/".data,
   ".DS_Store".data, "Thumbs.db".data, "desktop.ini".data]

/-- `shutil.ignore_patterns(*EXCLUDE_PATTERNS)` applied to one directory
entry name (`fnmatch.fnmatch(name, pattern)`, POSIX case behaviour). -/
def excludedName (name : Name) : Bool :=
  EXCLUDE_PATTERNS.any (fun p => globMatch p name)

/-- `copytree` with the ignore callable skips a relative path iff some
component of it matches a pattern (a matching directory name prunes the
whole subtree). -/
def excludedPath (p : Path) : Bool := p.any excludedName

/-- The files `copytree(codemate_dir, backup/original, ignore=...)` copies. -/
def filterExcluded (fs : FileMap) : FileMap :=
  fs.filter (fun e => !excludedPath e.1)

/-! ### `MiddlewareUpdater.download_file`

The middleware response is an oracle `dl : tag → filename → Option
Content`; `none` covers network errors and non-200 statuses. -/

/-- Tag normalisation done by `download_file`/`get_release_manifest`:
`lstrip('vV')` then prepend `'v'` when missing. -/
def normalize_tag (t : Name) : Name :=
  let s := t.dropWhile (fun c => c = 'v' || c = 'V')
  if listPre ['v'] s then s else 'v' :: s

def download_file (dl : Name → Name → Option Content)
    (version_tag filename : Name) : Option Content :=
  if version_tag.isEmpty || filename.isEmpty then none
  else if containsSub filename ['.', '.'] || listPre ['/'] filename ||
      filename.contains '\\' then none
  else
    match dl (normalize_tag version_tag) filename with
    | none => none
    | some content => if content.isEmpty then none else some content

/-! ### `UpdateManager._validate_filename` -/

/-- The `suspicious_patterns` local list. -/
def suspicious_patterns : List (List Char) :=
  ["..".data, "~".data, "$env".data, "%".data, "script".data, "exec".data]

def validate_filename (f : Name) : Bool :=
  if f.isEmpty then false
  else if containsSub f ['.', '.'] || listPre ['/'] f ||
      f.contains '\\' then false
  else if suspicious_patterns.any
      (fun p => containsSub (f.map Char.toLower) p) then false
  else true

/-! ### `UpdateManager.apply_manifest_changes` -/

/-- A manifest, already normalised the way the code reads it: the three
file lists (either the nested `codebase` shape or the legacy flat shape
produce them), the dependency flag (`'req.txt' in manifest or
manifest.get('dependencies')`), and the `version` field the rollback uses
(`manifest.get('version', manifest.get('manifest_version', '1.0'))`). -/
structure Manifest where
  files_add : List Name
  files_edit : List Name
  files_delete : List Name
  requires_dep : Bool
  manifest_version : Name
deriving DecidableEq

/-- Phase 1 body, one `files_delete` entry: invalid name fails, missing
path is `[SKIP]` (counts as success), otherwise delete. -/
def doDelete (live : FileMap) (f : Name) : Bool × FileMap :=
  if validate_filename f = false then (false, live)
  else if pathExists live (splitSlash f) then (true, deletePath live (splitSlash f))
  else (true, live)

/-- Phase 2/3 body, one `files_add`/`files_edit` entry (both download). -/
def doAdd (dl : Name → Name → Option Content) (vtag : Name)
    (live : FileMap) (f : Name) : Bool × FileMap :=
  if validate_filename f = false then (false, live)
  else
    match download_file dl vtag f with
    | some content => (true, writeFile live (splitSlash f) content)
    | none => (false, live)

/-- Run one phase over its file list, counting successes. -/
def foldOps (op : FileMap → Name → Bool × FileMap) :
    List Name → FileMap → Nat × FileMap
  | [], live => (0, live)
  | f :: fs, live =>
    let r := op live f
    let rest := foldOps op fs r.2
    ((if r.1 then 1 else 0) + rest.1, rest.2)

def requirements_txt : Name := "requirements.txt".data

/-- The four phases of `apply_manifest_changes`; returns
`(success_count, total_operations, live')`.  `pip` is the outcome of the
`pip install` subprocess. -/
def apply_core (dl : Name → Name → Option Content) (pip : Bool)
    (m : Manifest) (vtag : Name) (live : FileMap) : Nat × Nat × FileMap :=
  let r1 := foldOps doDelete m.files_delete live
  let r2 := foldOps (doAdd dl vtag) m.files_add r1.2
  let r3 := foldOps (doAdd dl vtag) m.files_edit r2.2
  let t := m.files_delete.length + m.files_add.length + m.files_edit.length
  if m.requires_dep then
    match download_file dl vtag requirements_txt with
    | some content =>
      if pip then (r1.1 + r2.1 + r3.1 + 1, t + 1, writeFile r3.2 [requirements_txt] content)
      else (r1.1 + r2.1 + r3.1, t + 1, writeFile r3.2 [requirements_txt] content)
    | none => (r1.1 + r2.1 + r3.1, t + 1, r3.2)
  else (r1.1 + r2.1 + r3.1, t, r3.2)

def backup_prefix : Name := "backup_".data

/-- `UpdateManager._rollback_changes`: looks for
`codemate_dir / f"backup_{backup_version}"` *inside the live directory*
and, when that directory exists, `copytree`s it over the live directory
(overwrite, no deletion).  A plain file of that name makes `copytree`
raise, which is caught and logged. -/
def rollback_changes (live : FileMap) (backup_version : Name) : FileMap :=
  let bdir : Name := backup_prefix ++ backup_version
  if pathExists live [bdir] then
    if lookupFile live [bdir] = none then
      (live.filter (fun e => listPre [bdir] e.1)).foldl
        (fun acc e =>
          match e.1 with
          | _ :: rest => writeFile acc rest e.2
          | [] => acc) live
    else live
  else live

/-- `apply_manifest_changes`: success iff `success_count ==
total_operations`; on failure of an update (not an installation) it calls
`_rollback_changes(manifest_version)`. -/
def apply_manifest_changes (dl : Name → Name → Option Content) (pip : Bool)
    (m : Manifest) (vtag : Name) (is_installation : Bool) (live : FileMap) :
    Bool × FileMap :=
  let r := apply_core dl pip m vtag live
  if r.1 = r.2.1 then (true, r.2.2)
  else
    (false, if is_installation then r.2.2 else rollback_changes r.2.2 m.manifest_version)

/-! ### `UpdateManager.update_to_version` -/

/-- Engine state: the live directory and the sibling
`../backup_staging/backup_staging_{tag}/original` snapshot (at most one
per run, which is what the code creates). -/
structure EngState where
  live : FileMap
  backupStaging : Option (Name × FileMap)
deriving DecidableEq

def version_txt : Name := "version.txt".data

/-- `load_current_version`: absent file → `None`; unparsable contents
raise inside the `try` and are also returned as `None`. -/
def load_current_version (live : FileMap) : Option Version :=
  match lookupFile live [version_txt] with
  | none => none
  | some contents => parse_version contents

/-- `save_version`: write `str(ver)` to `version.txt`. -/
def save_version (live : FileMap) (v : Version) : FileMap :=
  writeFile live [version_txt] (renderVersion v)

/-- `_create_safe_backup_staging`: `copytree` the live directory, with the
exclude patterns, into `backup_staging/backup_staging_{version_tag}/original`. -/
def create_safe_backup_staging (st : EngState) (version_tag : Name) : EngState :=
  { st with backupStaging := some (version_tag, filterExcluded st.live) }

/-- `validate_update_permissions`: reject `target <= current`, then ask
the user (`confirm` is the oracle for the `input()` answer). -/
def validate_update_permissions (current target : Version) (confirm : Bool) : Bool :=
  if leb target current then false else confirm

/-- `get_release_manifest` (middleware oracle keyed by normalised tag). -/
def get_release_manifest (mo : Name → Option Manifest) (version_tag : Name) :
    Option Manifest :=
  mo (normalize_tag version_tag)

inductive UpdateOutcome where
  | tookFresh : UpdateOutcome
  | failed : EngState → UpdateOutcome
  | succeeded : EngState → UpdateOutcome
deriving DecidableEq

/-- One iteration of the sequential update loop: fetch the manifest,
apply it to the live directory, and on success persist the step version. -/
def stepOnce (dl : Name → Name → Option Content) (mo : Name → Option Manifest)
    (pip : Bool) (v : Version) (st : EngState) : Bool × EngState :=
  match get_release_manifest mo (renderVersion v) with
  | none => (false, st)
  | some m =>
    let r := apply_manifest_changes dl pip m (renderVersion v) false st.live
    if r.1 then (true, { st with live := save_version r.2 v })
    else (false, { st with live := r.2 })

def stepLoop (dl : Name → Name → Option Content) (mo : Name → Option Manifest)
    (pip : Bool) : List Version → EngState → Bool × EngState
  | [], st => (true, st)
  | v :: vs, st =>
    let r := stepOnce dl mo pip v st
    if r.1 then stepLoop dl mo pip vs r.2 else (false, r.2)

/-- `update_to_version` (update path; the fresh-install path is out of the
modelled scope and marked by `tookFresh`).  On success the backup staging
directory is removed; on failure it is preserved for recovery. -/
def update_to_version (dl : Name → Name → Option Content)
    (mo : Name → Option Manifest) (pip confirm : Bool)
    (target : Name) (st : EngState) : UpdateOutcome :=
  match parse_version target with
  | none => UpdateOutcome.failed st
  | some tv =>
    match load_current_version st.live with
    | none => UpdateOutcome.tookFresh
    | some cv =>
      if validate_update_permissions cv tv confirm = false then
        UpdateOutcome.failed st
      else
        let ivs := find_intermediate_versions cv tv
        let ivs2 := if ivs.isEmpty then [tv] else ivs
        let st1 := create_safe_backup_staging st (renderVersion tv)
        let r := stepLoop dl mo pip ivs2 st1
        if r.1 then UpdateOutcome.succeeded { r.2 with backupStaging := none }
        else UpdateOutcome.failed r.2

/-! ### Counting lemmas for `apply_manifest_changes` -/

theorem foldOps_fst_le (op : FileMap → Name → Bool × FileMap)
    (fs : List Name) : ∀ live, (foldOps op fs live).1 ≤ fs.length := by
  induction fs with
  | nil => intro live; simp [foldOps]
  | cons f fs ih =>
    intro live
    simp only [foldOps, List.length_cons]
    have h2 := ih (op live f).2
    by_cases h : (op live f).1 <;> simp [h] <;> omega

theorem foldOps_fst_lt (op : FileMap → Name → Bool × FileMap)
    (fs : List Name) (f : Name) (hf : f ∈ fs)
    (hop : ∀ l, (op l f).1 = false) :
    ∀ live, (foldOps op fs live).1 < fs.length := by
  induction fs with
  | nil => cases hf
  | cons g gs ih =>
    intro live
    simp only [foldOps, List.length_cons]
    rcases List.mem_cons.mp hf with hg | hg
    · subst hg
      have h2 := foldOps_fst_le op gs (op live f).2
      simp [hop live]
      omega
    · have h1 := ih hg (op live g).2
      by_cases h : (op live g).1 <;> simp [h] <;> omega

theorem apply_core_fst_le (dl : Name → Name → Option Content) (pip : Bool)
    (m : Manifest) (vtag : Name) (live : FileMap) :
    (apply_core dl pip m vtag live).1 ≤ (apply_core dl pip m vtag live).2.1 := by
  have h1 := foldOps_fst_le doDelete m.files_delete live
  have h2 := foldOps_fst_le (doAdd dl vtag) m.files_add
    (foldOps doDelete m.files_delete live).2
  have h3 := foldOps_fst_le (doAdd dl vtag) m.files_edit
    (foldOps (doAdd dl vtag) m.files_add (foldOps doDelete m.files_delete live).2).2
  simp only [apply_core]
  by_cases hdep : m.requires_dep = true
  · rw [if_pos hdep]
    cases hdl : download_file dl vtag requirements_txt with
    | none => simp only [hdl]; omega
    | some content =>
      simp only [hdl]
      by_cases hpip : pip = true
      · rw [if_pos hpip]; dsimp only; omega
      · rw [if_neg hpip]; dsimp only; omega
  · rw [if_neg hdep]
    dsimp only
    omega

theorem apply_core_fst_lt (dl : Name → Name → Option Content) (pip : Bool)
    (m : Manifest) (vtag : Name) (f : Name)
    (h : (f ∈ m.files_delete ∧ ∀ l, (doDelete l f).1 = false) ∨
         (f ∈ m.files_add ∧ ∀ l, (doAdd dl vtag l f).1 = false) ∨
         (f ∈ m.files_edit ∧ ∀ l, (doAdd dl vtag l f).1 = false)) :
    ∀ live, (apply_core dl pip m vtag live).1 < (apply_core dl pip m vtag live).2.1 := by
  intro live
  have h1le := foldOps_fst_le doDelete m.files_delete live
  have h2le := foldOps_fst_le (doAdd dl vtag) m.files_add
    (foldOps doDelete m.files_delete live).2
  have h3le := foldOps_fst_le (doAdd dl vtag) m.files_edit
    (foldOps (doAdd dl vtag) m.files_add (foldOps doDelete m.files_delete live).2).2
  have hlt : (foldOps doDelete m.files_delete live).1 +
      (foldOps (doAdd dl vtag) m.files_add (foldOps doDelete m.files_delete live).2).1 +
      (foldOps (doAdd dl vtag) m.files_edit
        (foldOps (doAdd dl vtag) m.files_add (foldOps doDelete m.files_delete live).2).2).1 <
      m.files_delete.length + m.files_add.length + m.files_edit.length := by
    rcases h with ⟨hf, hop⟩ | ⟨hf, hop⟩ | ⟨hf, hop⟩
    · have := foldOps_fst_lt doDelete m.files_delete f hf hop live
      omega
    · have := foldOps_fst_lt (doAdd dl vtag) m.files_add f hf hop
        (foldOps doDelete m.files_delete live).2
      omega
    · have := foldOps_fst_lt (doAdd dl vtag) m.files_edit f hf hop
        (foldOps (doAdd dl vtag) m.files_add (foldOps doDelete m.files_delete live).2).2
      omega
  simp only [apply_core]
  by_cases hdep : m.requires_dep = true
  · rw [if_pos hdep]
    cases hdl : download_file dl vtag requirements_txt with
    | none => simp only [hdl]; omega
    | some content =>
      simp only [hdl]
      by_cases hpip : pip = true
      · rw [if_pos hpip]; dsimp only; omega
      · rw [if_neg hpip]; dsimp only; omega
  · rw [if_neg hdep]
    dsimp only
    omega

theorem apply_manifest_changes_false_of_lt (dl : Name → Name → Option Content)
    (pip : Bool) (m : Manifest) (vtag : Name) (b : Bool) (live : FileMap)
    (h : (apply_core dl pip m vtag live).1 < (apply_core dl pip m vtag live).2.1) :
    (apply_manifest_changes dl pip m vtag b live).1 = false := by
  simp only [apply_manifest_changes]
  have hne : ¬ ((apply_core dl pip m vtag live).1 = (apply_core dl pip m vtag live).2.1) := by
    omega
  simp [hne]

theorem doDelete_invalid {f : Name} (h : validate_filename f = false)
    (l : FileMap) : doDelete l f = (false, l) := by
  simp [doDelete, h]

theorem doAdd_invalid {f : Name} (h : validate_filename f = false)
    (dl : Name → Name → Option Content) (vtag : Name) (l : FileMap) :
    doAdd dl vtag l f = (false, l) := by
  simp [doAdd, h]

theorem doAdd_dl_none {dl : Name → Name → Option Content} {vtag f : Name}
    (h : download_file dl vtag f = none) (l : FileMap) :
    (doAdd dl vtag l f).1 = false := by
  rw [doAdd]
  by_cases hv : validate_filename f = false
  · simp [hv]
  · simp [hv, h]

theorem validate_filename_suspicious {f : Name}
    (h : suspicious_patterns.any
      (fun p => containsSub (f.map Char.toLower) p) = true) :
    validate_filename f = false := by
  rw [validate_filename]
  by_cases h1 : f.isEmpty = true
  · rw [if_pos h1]
  · rw [if_neg h1]
    by_cases h2 : (containsSub f ['.', '.'] || listPre ['/'] f ||
        f.contains '\\') = true
    · rw [if_pos h2]
    · rw [if_neg h2, if_pos h]

theorem download_file_of_empty_content {dl : Name → Name → Option Content}
    {vtag f : Name} (h : dl (normalize_tag vtag) f = some []) :
    download_file dl vtag f = none := by
  rw [download_file]
  by_cases h1 : (vtag.isEmpty || f.isEmpty) = true
  · rw [if_pos h1]
  · rw [if_neg h1]
    by_cases h2 : (containsSub f ['.', '.'] || listPre ['/'] f ||
        f.contains '\\') = true
    · rw [if_pos h2]
    · rw [if_neg h2, h]
      rfl

/-! ## Claims C8, C9, C10 -/

/-- C8: any filename containing, case-insensitively, one of the
substrings `..`, `~`, `$env`, `%`, `script`, `exec` is rejected by
`_validate_filename`, its operation is not performed and is counted as
failed, so the whole step fails; in particular the benign names
`description.txt` and `scripts/run.py` are rejected. -/
theorem c8_suspicious_names_fail_step :
    (∀ f : Name, suspicious_patterns.any
        (fun p => containsSub (f.map Char.toLower) p) = true →
      validate_filename f = false) ∧
    (∀ (dl : Name → Name → Option Content) (vtag : Name) (l : FileMap)
        (f : Name), validate_filename f = false →
      doDelete l f = (false, l) ∧ doAdd dl vtag l f = (false, l)) ∧
    (∀ (dl : Name → Name → Option Content) (pip : Bool) (m : Manifest)
        (vtag : Name) (b : Bool) (live : FileMap) (f : Name),
      (f ∈ m.files_delete ∨ f ∈ m.files_add ∨ f ∈ m.files_edit) →
      suspicious_patterns.any
        (fun p => containsSub (f.map Char.toLower) p) = true →
      (apply_manifest_changes dl pip m vtag b live).1 = false) ∧
    validate_filename "description.txt".data = false ∧
    validate_filename "scripts/run.py".data = false := by
  refine ⟨fun f h => validate_filename_suspicious h, ?_, ?_, by decide, by decide⟩
  · intro dl vtag l f h
    exact ⟨doDelete_invalid h l, doAdd_invalid h dl vtag l⟩
  · intro dl pip m vtag b live f hf hsus
    have hv := validate_filename_suspicious hsus
    apply apply_manifest_changes_false_of_lt
    apply apply_core_fst_lt dl pip m vtag f
    rcases hf with hf | hf | hf
    · exact Or.inl ⟨hf, fun l => by rw [doDelete_invalid hv l]⟩
    · exact Or.inr (Or.inl ⟨hf, fun l => by rw [doAdd_invalid hv dl vtag l]⟩)
    · exact Or.inr (Or.inr ⟨hf, fun l => by rw [doAdd_invalid hv dl vtag l]⟩)

/-- Witness for C8 at a concrete manifest: a step whose only operation
deletes `description.txt` fails. -/
theorem c8_witness :
    (apply_manifest_changes (fun _ _ => none) false
      ⟨[], [], ["description.txt".data], false, "1.0".data⟩
      "v1.0.1".data false []).1 = false :=
  c8_suspicious_names_fail_step.2.2.1 (fun _ _ => none) false
    ⟨[], [], ["description.txt".data], false, "1.0".data⟩
    "v1.0.1".data false [] "description.txt".data
    (Or.inl (List.mem_cons_self _ _)) (by decide)

/-- C9: `download_file` fails whenever the middleware returns zero-byte
content, for every version tag and filename; hence a manifest listing
such a file (in `files_add` or `files_edit`) can never be applied
successfully. -/
theorem c9_empty_download_fails :
    (∀ (dl : Name → Name → Option Content) (vtag f : Name),
      dl (normalize_tag vtag) f = some [] →
      download_file dl vtag f = none) ∧
    (∀ (dl : Name → Name → Option Content) (pip : Bool) (m : Manifest)
        (vtag : Name) (b : Bool) (live : FileMap) (f : Name),
      (f ∈ m.files_add ∨ f ∈ m.files_edit) →
      dl (normalize_tag vtag) f = some [] →
      (apply_manifest_changes dl pip m vtag b live).1 = false) := by
  refine ⟨fun dl vtag f h => download_file_of_empty_content h, ?_⟩
  intro dl pip m vtag b live f hf hdl
  have hnone : download_file dl vtag f = none := download_file_of_empty_content hdl
  apply apply_manifest_changes_false_of_lt
  apply apply_core_fst_lt dl pip m vtag f
  rcases hf with hf | hf
  · exact Or.inr (Or.inl ⟨hf, doAdd_dl_none hnone⟩)
  · exact Or.inr (Or.inr ⟨hf, doAdd_dl_none hnone⟩)

/-- Witness for C9: a middleware that serves `a.txt` as an empty file
makes the download fail and the step fail. -/
theorem c9_witness :
    download_file (fun _ _ => some []) "1.0.1".data "a.txt".data = none ∧
    (apply_manifest_changes (fun _ _ => some []) true
      ⟨["a.txt".data], [], [], false, "1.0".data⟩
      "1.0.1".data false []).1 = false :=
  ⟨c9_empty_download_fails.1 (fun _ _ => some []) "1.0.1".data "a.txt".data rfl,
   c9_empty_download_fails.2 (fun _ _ => some []) true
     ⟨["a.txt".data], [], [], false, "1.0".data⟩ "1.0.1".data false []
     "a.txt".data (Or.inl (List.mem_cons_self _ _)) rfl⟩

/-- C10: an empty manifest with no dependency requirement is applied
successfully with zero operations (`0 == 0`), leaves the live directory
untouched, and in an update step the step version is then persisted to
`version.txt`. -/
theorem c10_empty_manifest_succeeds :
    (∀ (dl : Name → Name → Option Content) (pip : Bool) (vtag mv : Name)
        (b : Bool) (live : FileMap),
      apply_core dl pip ⟨[], [], [], false, mv⟩ vtag live = (0, 0, live) ∧
      apply_manifest_changes dl pip ⟨[], [], [], false, mv⟩ vtag b live =
        (true, live)) ∧
    (∀ (dl : Name → Name → Option Content) (mo : Name → Option Manifest)
        (pip : Bool) (v : Version) (st : EngState) (mv : Name),
      get_release_manifest mo (renderVersion v) = some ⟨[], [], [], false, mv⟩ →
      stepOnce dl mo pip v st =
        (true, { st with live := save_version st.live v })) := by
  constructor
  · intro dl pip vtag mv b live
    constructor
    · rfl
    · rfl
  · intro dl mo pip v st mv hmo
    simp only [stepOnce, hmo]
    rfl

/-- Witness for C10: a release whose manifest is empty updates nothing
but persists the step version. -/
theorem c10_witness :
    stepOnce (fun _ _ => none) (fun _ => some ⟨[], [], [], false, "1.0".data⟩)
      true ⟨1, 0, 1⟩ ⟨[], none⟩ =
      (true, { live := save_version [] ⟨1, 0, 1⟩, backupStaging := none }) :=
  c10_empty_manifest_succeeds.2 (fun _ _ => none)
    (fun _ => some ⟨[], [], [], false, "1.0".data⟩) true ⟨1, 0, 1⟩ ⟨[], none⟩
    "1.0".data rfl

/-! ## Claims C1, C2, C4 -/

/-- C1 (code bug): a concrete failing update step.  The live directory
starts with `a.txt` and `version.txt`; the step deletes `a.txt` (succeeds)
and then fails to download `b.txt`.  `apply_manifest_changes` reports
failure and calls `_rollback_changes("1.0.1")`, which looks for a
`backup_1.0.1` directory *inside* the live directory — but the snapshot
was created in the sibling `backup_staging` area, so nothing is restored:
the non-excluded file `a.txt` stays deleted, and the live directory is
not byte-for-byte its pre-step state. -/
theorem c1_failed_step_not_restored :
    apply_manifest_changes (fun _ _ => none) false
      ⟨["b.txt".data], [], ["a.txt".data], false, "1.0.1".data⟩
      "v1.0.1".data false
      [(["a.txt".data], "x".data), ([version_txt], "1.0.0".data)] =
      (false, [([version_txt], "1.0.0".data)]) ∧
    excludedPath ["a.txt".data] = false ∧
    lookupFile [(["a.txt".data], "x".data), ([version_txt], "1.0.0".data)]
      ["a.txt".data] = some "x".data ∧
    lookupFile [([version_txt], "1.0.0".data)] ["a.txt".data] = none := by
  exact ⟨by decide, by decide, by decide, by decide⟩

/-- C2 counterexample: `.env` is matched by the exclusion rule `.env`,
yet a manifest deleting it passes `_validate_filename` and the delete is
performed and reported as a success — not rejected as an error. -/
theorem c2_counterexample :
    excludedName ".env".data = true ∧
    validate_filename ".env".data = true ∧
    apply_manifest_changes (fun _ _ => none) false
      ⟨[], [], [".env".data], false, "1.0".data⟩ "v1.0.1".data false
      [([".env".data], "SECRET".data)] = (true, []) := by
  exact ⟨by decide, by decide, by decide⟩

theorem deletePath_of_not_exists {live : FileMap} {p : Path}
    (h : pathExists live p = false) : deletePath live p = live := by
  rw [deletePath, List.filter_eq_self]
  intro e he
  rw [pathExists, List.any_eq_false] at h
  simp [h e he]

/-- C2 (amended): the exclusion rules are consulted only when the backup
snapshot is copied (per-component basename fnmatch); manifest operations
are checked only by `_validate_filename`, so every filename it accepts is
deleted when listed in `files_delete`, whether or not an exclusion rule
matches it. -/
theorem c2_exclusions_only_guard_backup (dl : Name → Name → Option Content)
    (pip : Bool) (mv vtag : Name) (live : FileMap) (f : Name)
    (h : validate_filename f = true) :
    create_safe_backup_staging ⟨live, none⟩ vtag =
      ⟨live, some (vtag, filterExcluded live)⟩ ∧
    apply_manifest_changes dl pip ⟨[], [], [f], false, mv⟩ vtag false live =
      (true, deletePath live (splitSlash f)) := by
  refine ⟨rfl, ?_⟩
  have hD : doDelete live f = (true, deletePath live (splitSlash f)) := by
    rw [doDelete, if_neg (by simp [h])]
    by_cases he : pathExists live (splitSlash f) = true
    · rw [if_pos he]
    · rw [if_neg he,
        deletePath_of_not_exists (by revert he; cases pathExists live (splitSlash f) <;> simp)]
  simp only [apply_manifest_changes, apply_core, foldOps, hD]
  simp

/-- Witness for the amended C2 at the excluded path `.env`. -/
theorem c2_exclusions_witness :
    apply_manifest_changes (fun _ _ => none) false
      ⟨[], [], [".env".data], false, "1.0".data⟩ "v1.0.2".data false
      [([".env".data], "SECRET".data), (["app.py".data], "CODE".data)] =
      (true, deletePath
        [([".env".data], "SECRET".data), (["app.py".data], "CODE".data)]
        (splitSlash ".env".data)) :=
  (c2_exclusions_only_guard_backup (fun _ _ => none) false "1.0".data
    "v1.0.2".data _ ".env".data (by decide)).2

/-- C4 counterexample: with `version.txt` present but unparsable,
`load_current_version` returns `None` and `update_to_version` takes the
fresh-install path — no distinct error is surfaced. -/
theorem c4_counterexample :
    load_current_version [([version_txt], "garbage".data)] = none ∧
    update_to_version (fun _ _ => none) (fun _ => none) true true
      "1.0.2".data ⟨[([version_txt], "garbage".data)], none⟩ =
      UpdateOutcome.tookFresh := by
  constructor
  · decide
  · decide

/-- C4 (amended): an existing but empty or unparsable `version.txt` is
treated exactly like an absent one: `load_current_version` returns `None`
and the engine takes the fresh-install path. -/
theorem c4_corrupt_state_means_fresh (dl : Name → Name → Option Content)
    (mo : Name → Option Manifest) (pip confirm : Bool) (st : EngState)
    (s : Content) (target : Name) (tv : Version)
    (h1 : lookupFile st.live [version_txt] = some s)
    (h2 : parse_version s = none)
    (h3 : parse_version target = some tv) :
    load_current_version st.live = none ∧
    update_to_version dl mo pip confirm target st = UpdateOutcome.tookFresh := by
  have hl : load_current_version st.live = none := by
    simp only [load_current_version, h1]
    exact h2
  exact ⟨hl, by simp [update_to_version, h3, hl]⟩

/-- Witness for the amended C4 at an empty `version.txt`. -/
theorem c4_witness :
    load_current_version [([version_txt], [])] = none ∧
    update_to_version (fun _ _ => none) (fun _ => none) false false
      "2.0.0".data ⟨[([version_txt], [])], none⟩ = UpdateOutcome.tookFresh :=
  c4_corrupt_state_means_fresh (fun _ _ => none) (fun _ => none) false false
    ⟨[([version_txt], [])], none⟩ [] "2.0.0".data ⟨2, 0, 0⟩
    (by decide) (by decide) (by decide)

/-! ## Claim C3 -/

theorem natDigits_single {n : Nat} (h0 : 0 < n) (h : n < 10) :
    natDigits n = [Nat.digitChar n] := by
  rw [natDigits, if_neg (by omega), Nat.digits_def' (by norm_num : (1:ℕ) < 10) h0,
    Nat.mod_eq_of_lt h, Nat.div_eq_of_lt h]
  simp

theorem renderVersion_small {a b c : Nat} (ha : a < 10) (hb : b < 10) (hc : c < 10) :
    renderVersion ⟨a, b, c⟩ =
      [Nat.digitChar a, '.', Nat.digitChar b, '.', Nat.digitChar c] := by
  have h : ∀ n, n < 10 → natDigits n = [Nat.digitChar n] := by
    intro n hn
    by_cases h0 : n = 0
    · subst h0; rfl
    · exact natDigits_single (by omega) hn
  rw [renderVersion, h a ha, h b hb, h c hc]
  rfl

theorem render_101 : renderVersion ⟨1, 0, 1⟩ = "1.0.1".data := by
  rw [renderVersion_small (by norm_num) (by norm_num) (by norm_num)]
  decide

theorem render_102 : renderVersion ⟨1, 0, 2⟩ = "1.0.2".data := by
  rw [renderVersion_small (by norm_num) (by norm_num) (by norm_num)]
  decide

/-- C3 counterexample: a two-step update `1.0.0 → 1.0.2`.  The only
snapshot the engine ever creates is taken once, before the loop, and is
identified by the *target* version `1.0.2` with the pre-update contents.
Step 1 (version `1.0.1`) then mutates the live directory even though no
snapshot identified by `1.0.1` exists, and at the start of step 2 the
snapshot does not contain the non-protected live file `a.txt`. -/
theorem c3_counterexample :
    find_intermediate_versions ⟨1, 0, 0⟩ ⟨1, 0, 2⟩ = [⟨1, 0, 1⟩, ⟨1, 0, 2⟩] ∧
    create_safe_backup_staging ⟨[([version_txt], "1.0.0".data)], none⟩
        (renderVersion ⟨1, 0, 2⟩) =
      ⟨[([version_txt], "1.0.0".data)],
        some ("1.0.2".data, [([version_txt], "1.0.0".data)])⟩ ∧
    renderVersion ⟨1, 0, 1⟩ ≠ "1.0.2".data ∧
    stepOnce
      (fun t f => if t = "v1.0.1".data ∧ f = "a.txt".data then some "x".data else none)
      (fun t => if t = "v1.0.1".data then
          some ⟨["a.txt".data], [], [], false, "1.0.1".data⟩
        else if t = "v1.0.2".data then
          some ⟨[], [], [], false, "1.0.2".data⟩
        else none)
      true ⟨1, 0, 1⟩
      ⟨[([version_txt], "1.0.0".data)],
        some ("1.0.2".data, [([version_txt], "1.0.0".data)])⟩ =
      (true, ⟨[(["a.txt".data], "x".data), ([version_txt], "1.0.1".data)],
        some ("1.0.2".data, [([version_txt], "1.0.0".data)])⟩) ∧
    excludedPath ["a.txt".data] = false ∧
    lookupFile [([version_txt], "1.0.0".data)] ["a.txt".data] = none ∧
    lookupFile [(["a.txt".data], "x".data), ([version_txt], "1.0.1".data)]
      ["a.txt".data] = some "x".data := by
  refine ⟨?_, ?_, ?_, ?_, ?_, by decide, by decide⟩
  · simp [find_intermediate_versions, majorLoop, minorLoop, patchLoop,
      geb, gtb, eqb, vlt, bump_major, bump_minor, bump_patch]
  · have hfe : filterExcluded [([version_txt], "1.0.0".data)] =
        [([version_txt], "1.0.0".data)] := by decide
    simp only [create_safe_backup_staging, render_102, hfe]
  · rw [render_101]
    decide
  · simp only [stepOnce, get_release_manifest, render_101, save_version]
    decide
  · decide

theorem stepOnce_backupStaging (dl : Name → Name → Option Content)
    (mo : Name → Option Manifest) (pip : Bool) (v : Version) (st : EngState) :
    ((stepOnce dl mo pip v st).2).backupStaging = st.backupStaging := by
  rw [stepOnce]
  cases hmo : get_release_manifest mo (renderVersion v) with
  | none => rfl
  | some m =>
    dsimp only
    by_cases h : (apply_manifest_changes dl pip m (renderVersion v) false st.live).1 = true
    · rw [if_pos h]
    · rw [if_neg h]

theorem stepLoop_backupStaging (dl : Name → Name → Option Content)
    (mo : Name → Option Manifest) (pip : Bool) :
    ∀ (vs : List Version) (st : EngState),
      ((stepLoop dl mo pip vs st).2).backupStaging = st.backupStaging := by
  intro vs
  induction vs with
  | nil => intro st; rfl
  | cons v vs ih =>
    intro st
    rw [stepLoop]
    by_cases h : (stepOnce dl mo pip v st).1 = true
    · rw [if_pos h, ih]
      exact stepOnce_backupStaging dl mo pip v st
    · rw [if_neg h]
      exact stepOnce_backupStaging dl mo pip v st

/-- C3 (amended): a single backup snapshot is created before the step
loop, identified by the target version and holding the non-protected
paths of the live directory as at the start of the whole update; the loop
itself never creates or refreshes a snapshot (only the final cleanup of a
successful update drops it). -/
theorem c3_single_backup_before_loop :
    (∀ (st : EngState) (tag : Name),
      create_safe_backup_staging st tag =
        { live := st.live, backupStaging := some (tag, filterExcluded st.live) }) ∧
    (∀ (dl : Name → Name → Option Content) (mo : Name → Option Manifest)
        (pip : Bool) (vs : List Version) (st : EngState),
      ((stepLoop dl mo pip vs st).2).backupStaging = st.backupStaging) :=
  ⟨fun _ _ => rfl, fun dl mo pip vs st => stepLoop_backupStaging dl mo pip vs st⟩

/-- Witness for the amended C3. -/
theorem c3_single_backup_witness :
    create_safe_backup_staging ⟨[], none⟩ "1.0.2".data =
      ⟨[], some ("1.0.2".data, [])⟩ ∧
    ((stepLoop (fun _ _ => none) (fun _ => none) true [⟨1, 0, 1⟩]
      ⟨[], some ("1.0.2".data, [])⟩).2).backupStaging =
      some ("1.0.2".data, []) :=
  ⟨c3_single_backup_before_loop.1 ⟨[], none⟩ "1.0.2".data,
   c3_single_backup_before_loop.2 (fun _ _ => none) (fun _ => none) true
     [⟨1, 0, 1⟩] ⟨[], some ("1.0.2".data, [])⟩⟩

/-! ## Claim C5 -/

theorem find_spec_of_vlt (c t : Version) (hvlt : vlt c t) :
    find_intermediate_versions c t ≠ [] ∧
    List.Chain vlt c (find_intermediate_versions c t) ∧
    (find_intermediate_versions c t).getLastD c = t := by
  have hge : geb c t = false := (geb_false_iff_vlt c t).mpr hvlt
  simp only [find_intermediate_versions]
  rw [if_neg (by simp [hge])]
  obtain ⟨a1, b1, e1, n1⟩ := majorLoop_spec (t.major - c.major) c t.major rfl
  obtain ⟨a2, b2, e2, n2⟩ := minorLoop_spec
    (t.minor - (majorLoop c t.major).2.minor) (majorLoop c t.major).2 t.minor rfl
  obtain ⟨a3, b3, e3, n3⟩ := patchLoop_spec
    (t.patch - (minorLoop (majorLoop c t.major).2 t.minor).2.patch)
    (minorLoop (majorLoop c t.major).2 t.minor).2 t.patch rfl
  refine ⟨?_, ?_, ?_⟩
  · intro hnil
    rcases List.append_eq_nil.mp hnil with ⟨h1, h23⟩
    rcases List.append_eq_nil.mp h23 with ⟨h2, h3⟩
    have hM := n1.mp h1
    have hf1 : (majorLoop c t.major).2 = c := by rw [e1, if_neg hM]
    have hm := n2.mp h2
    rw [hf1] at hm
    have hf2 : (minorLoop (majorLoop c t.major).2 t.minor).2 = c := by
      rw [e2, hf1, if_neg hm]
    have hp := n3.mp h3
    rw [hf2] at hp
    rcases hvlt with h | ⟨heq, h | ⟨heq2, h⟩⟩ <;> omega
  · refine chain_append_chain a1 ?_
    rw [← b1]
    refine chain_append_chain a2 ?_
    rw [← b2]
    exact a3
  · rw [getLastD_append_eq, getLastD_append_eq, ← b1, ← b2, ← b3]
    rcases hvlt with hA | ⟨hA, hB | ⟨hB, hP⟩⟩
    · have hf1 : (majorLoop c t.major).2 = (⟨t.major, 0, 0⟩ : Version) := by
        rw [e1, if_pos hA]
      have hf2 : (minorLoop (majorLoop c t.major).2 t.minor).2 =
          (⟨t.major, t.minor, 0⟩ : Version) := by
        rw [e2, hf1]
        dsimp only
        by_cases hm : (0 : Nat) < t.minor
        · rw [if_pos hm]
        · rw [if_neg hm]
          have h0 : t.minor = 0 := by omega
          rw [h0]
      rw [e3, hf2]
      dsimp only
      by_cases hp : (0 : Nat) < t.patch
      · rw [if_pos hp]
      · rw [if_neg hp]
        have h0 : t.patch = 0 := by omega
        rw [← h0]
    · have hf1 : (majorLoop c t.major).2 = c := by
        rw [e1, if_neg (by omega)]
      have hf2 : (minorLoop (majorLoop c t.major).2 t.minor).2 =
          (⟨c.major, t.minor, 0⟩ : Version) := by
        rw [e2, hf1, if_pos hB]
      rw [e3, hf2]
      dsimp only
      by_cases hp : (0 : Nat) < t.patch
      · rw [if_pos hp, hA]
      · rw [if_neg hp]
        have h0 : t.patch = 0 := by omega
        rw [← h0, hA]
    · have hf1 : (majorLoop c t.major).2 = c := by
        rw [e1, if_neg (by omega)]
      have hf2 : (minorLoop (majorLoop c t.major).2 t.minor).2 = c := by
        rw [e2, hf1, if_neg (by omega)]
      rw [e3, hf2, if_pos hP, hA, hB]

/-- C5: `find_intermediate_versions` returns `[]` whenever
`target <= current`; whenever `current < target` it returns a non-empty
strictly increasing sequence, lying strictly above `current`, whose last
element equals `target`; and on `(1.0.0, 2.1.3)` it yields exactly
`[2.0.0, 2.1.0, 2.1.1, 2.1.2, 2.1.3]`. -/
theorem c5_path_between_spec :
    (∀ c t : Version,
      (geb c t = true → find_intermediate_versions c t = []) ∧
      (ltb c t = true →
        find_intermediate_versions c t ≠ [] ∧
        List.Chain vlt c (find_intermediate_versions c t) ∧
        List.Chain' vlt (find_intermediate_versions c t) ∧
        (find_intermediate_versions c t).getLastD c = t)) ∧
    find_intermediate_versions ⟨1, 0, 0⟩ ⟨2, 1, 3⟩ =
      [⟨2, 0, 0⟩, ⟨2, 1, 0⟩, ⟨2, 1, 1⟩, ⟨2, 1, 2⟩, ⟨2, 1, 3⟩] := by
  constructor
  · intro c t
    constructor
    · intro h
      rw [find_intermediate_versions, if_pos h]
    · intro hlt
      have hvlt : vlt c t := of_decide_eq_true hlt
      obtain ⟨hne, hchain, hlast⟩ := find_spec_of_vlt c t hvlt
      exact ⟨hne, hchain,
        List.Chain'.tail (show List.Chain' vlt (c :: find_intermediate_versions c t) from hchain),
        hlast⟩
  · simp [find_intermediate_versions, majorLoop, minorLoop, patchLoop,
      geb, gtb, eqb, vlt, bump_major, bump_minor, bump_patch]

/-- Witness for C5 at `(1.0.0, 2.1.3)`. -/
theorem c5_witness :
    find_intermediate_versions ⟨1, 0, 0⟩ ⟨2, 1, 3⟩ ≠ [] ∧
    (find_intermediate_versions ⟨1, 0, 0⟩ ⟨2, 1, 3⟩).getLastD ⟨1, 0, 0⟩ =
      ⟨2, 1, 3⟩ ∧
    find_intermediate_versions ⟨2, 1, 3⟩ ⟨2, 1, 3⟩ = [] :=
  ⟨((c5_path_between_spec.1 ⟨1, 0, 0⟩ ⟨2, 1, 3⟩).2 (by decide)).1,
   ((c5_path_between_spec.1 ⟨1, 0, 0⟩ ⟨2, 1, 3⟩).2 (by decide)).2.2.2,
   (c5_path_between_spec.1 ⟨2, 1, 3⟩ ⟨2, 1, 3⟩).1 (by decide)⟩

/-! ## Claims C6 and C7 -/

/-- C6 counterexample: `"vv1.0.0"` has two leading `v`s — not the claimed
shape of an optional *single* leading `v`/`V` — yet `_parse_version`
accepts it (`lstrip('vV')` removes every leading `v`/`V`). -/
theorem c6_counterexample :
    (parse_version "vv1.0.0".data).isSome = true ∧
    ¬ ClaimedShape "vv1.0.0".data := by
  refine ⟨by decide, ?_⟩
  rintro (h | ⟨rest, hr, h3⟩)
  · obtain ⟨ch, cs, heq, hd⟩ := ThreeGroups_head_digit h
    rw [show "vv1.0.0".data = 'v' :: "v1.0.0".data from rfl] at heq
    cases heq
    exact absurd hd (by decide)
  · rcases hr with hr | hr
    · rw [show "vv1.0.0".data = 'v' :: "v1.0.0".data from rfl] at hr
      cases hr
      obtain ⟨ch, cs, heq, hd⟩ := ThreeGroups_head_digit h3
      rw [show "v1.0.0".data = 'v' :: "1.0.0".data from rfl] at heq
      cases heq
      exact absurd hd (by decide)
    · rw [show "vv1.0.0".data = 'v' :: "v1.0.0".data from rfl] at hr
      cases hr

/-- C6 (amended): `_parse_version` succeeds on exactly the strings that,
after stripping surrounding whitespace and *any number* of leading `v`/`V`
characters, consist of exactly three dot-separated non-empty decimal digit
groups. -/
theorem c6_parse_accepted_shape (s : List Char) :
    (parse_version s).isSome = true ↔ ThreeGroups (lstripV (pyStrip s)) :=
  parse_version_isSome_iff s

/-- Witness for the amended C6 at `" vv1.2.3 "`. -/
theorem c6_witness : ThreeGroups (lstripV (pyStrip " vv1.2.3 ".data)) :=
  (c6_parse_accepted_shape " vv1.2.3 ".data).mp (by decide)

/-- C7: for every string the parser accepts, parsing the canonical
rendering of the parsed value yields the same version. -/
theorem c7_parse_render_roundtrip (s : List Char) (v : Version)
    (h : parse_version s = some v) :
    parse_version (renderVersion v) = some v :=
  parse_version_renderVersion v

/-- Witness for C7 at `"v1.2.3"`. -/
theorem c7_witness : parse_version (renderVersion ⟨1, 2, 3⟩) = some ⟨1, 2, 3⟩ :=
  c7_parse_render_roundtrip "v1.2.3".data ⟨1, 2, 3⟩ (by decide)

end UpdateMechanism
